import Mathlib

/-!
Verification of the `LocalStorage` storage engine
(`src/platform/storage/local-storage.ts`).

The adapter wraps the browser's synchronous `window.localStorage` behind a
promise interface, parsing stored strings with `JSON.parse` on read
(`testParse`) and stringifying arrays with `JSON.stringify` on write
(`testForArray`).

Shallow embedding choices:
* JavaScript values exchanged with the adapter are modelled by `JSValue`
  (null, undefined, booleans, numbers, strings, arrays, objects).  Numbers
  are modelled as integers: every concrete number appearing in the spec and
  its scenarios is an integer, and the float-specific behaviour of the host
  `JSON` codec is outside the claims.
* The host store `window.localStorage` is modelled as a partial map from
  string keys to string values (`Store`); `getItem` returns `none` as the
  missing-key sentinel (JavaScript `null`).
* The host `JSON.parse` / `JSON.stringify` pair is modelled executably by
  `jsonParse` / `jsonStringify` below: stringify emits the canonical
  compact encoding, parse is a recursive-descent parser accepting exactly
  the literals stringify can produce (plus surrounding whitespace), as the
  host codec does.  `JSON.parse` coerces a `null` argument to the string
  `"null"`, which the model reproduces.
* `setItem` coerces a non-string second argument with the JavaScript
  `String(·)` conversion; `jsToString` models that conversion.
* A promise produced by one adapter call is a single-shot result, modelled
  by `Except`; whether the wrapped synchronous host call throws on a given
  invocation is host nondeterminism, made explicit as a `fault : Option
  JSError` parameter (`none`: the host call returns; `some e`: it raises
  `e`).  The host store is documented as atomic per call, so a raising
  call leaves the map unchanged.
-/

/-- JavaScript values as exchanged with the adapter. -/
inductive JSValue where
  | null
  | undef
  | bool (b : Bool)
  | num (n : Int)
  | str (s : String)
  | arr (elems : List JSValue)
  | obj (fields : List (String × JSValue))

/-- Character for a decimal digit value. -/
def digitChar (n : Nat) : Char := Char.ofNat (48 + n)

/-- Decimal digits of a natural number, most significant first, with an
accumulator and an explicit recursion budget (`n + 1` always suffices). -/
def natToCharsAux : Nat → Nat → List Char → List Char
  | 0, _, acc => acc
  | fuel + 1, n, acc =>
    if n < 10 then digitChar n :: acc
    else natToCharsAux fuel (n / 10) (digitChar (n % 10) :: acc)

/-- Decimal representation of a natural number. -/
def natToChars (n : Nat) : List Char := natToCharsAux (n + 1) n []

/-- Decimal representation of an integer, as produced by the JavaScript
number-to-string conversion on integral values. -/
def intToChars (n : Int) : List Char :=
  if n < 0 then '-' :: natToChars n.natAbs else natToChars n.toNat

/-- JSON escaping of one string character, as emitted by the host
stringifier. -/
def escChar (c : Char) : List Char :=
  if c = '"' then ['\\', '"']
  else if c = '\\' then ['\\', '\\']
  else if c = '\n' then ['\\', 'n']
  else if c = '\t' then ['\\', 't']
  else if c = '\r' then ['\\', 'r']
  else [c]

/-- JSON escaping of a string body. -/
def escString : List Char → List Char
  | [] => []
  | c :: cs => escChar c ++ escString cs

mutual

/-- Model of `JSON.stringify` (characters of the compact encoding).
Inside an array, `undefined` is encoded as `null`, as the host stringifier
does.  The adapter only ever stringifies arrays (`testForArray`), so the
top-level `undef` case is never reached through the adapter. -/
def stringifyChars : JSValue → List Char
  | .null => ['n', 'u', 'l', 'l']
  | .undef => ['n', 'u', 'l', 'l']
  | .bool b => if b then ['t', 'r', 'u', 'e'] else ['f', 'a', 'l', 's', 'e']
  | .num n => intToChars n
  | .str s => '"' :: escString s.data ++ ['"']
  | .arr elems => '[' :: stringifyElems elems ++ [']']
  | .obj fields => '{' :: stringifyFields fields ++ ['}']

/-- Comma-separated encodings of array elements. -/
def stringifyElems : List JSValue → List Char
  | [] => []
  | [v] => stringifyChars v
  | v :: vs => stringifyChars v ++ ',' :: stringifyElems vs

/-- Comma-separated encodings of object fields. -/
def stringifyFields : List (String × JSValue) → List Char
  | [] => []
  | [(k, v)] => '"' :: escString k.data ++ '"' :: ':' :: stringifyChars v
  | (k, v) :: fs =>
    '"' :: escString k.data ++ '"' :: ':' :: stringifyChars v
      ++ ',' :: stringifyFields fs

end

/-- Model of `JSON.stringify` returning a string. -/
def jsonStringify (v : JSValue) : String := String.mk (stringifyChars v)

/-- Whitespace characters skipped by the JSON parser. -/
def wsb (c : Char) : Bool := decide (c = ' ' ∨ c = '\t' ∨ c = '\n' ∨ c = '\r')

/-- Drop leading JSON whitespace. -/
def skipWs : List Char → List Char
  | [] => []
  | c :: cs => if wsb c then skipWs cs else c :: cs

/-- Numeric value of a digit character. -/
def digitVal (c : Char) : Nat := c.toNat - 48

/-- Accumulate decimal digits onto `a`. -/
def foldDigits (a : Nat) (l : List Char) : Nat :=
  l.foldl (fun x c => x * 10 + digitVal c) a

/-- Parse a nonempty run of decimal digits. -/
def parseDigits (l : List Char) : Option (Nat × List Char) :=
  let ds := l.takeWhile Char.isDigit
  if ds.isEmpty then none
  else some (foldDigits 0 ds, l.dropWhile Char.isDigit)

/-- Resolve a JSON string escape character. -/
def unescape (c : Char) : Option Char :=
  if c = '"' then some '"'
  else if c = '\\' then some '\\'
  else if c = '/' then some '/'
  else if c = 'n' then some '\n'
  else if c = 't' then some '\t'
  else if c = 'r' then some '\r'
  else if c = 'b' then some (Char.ofNat 8)
  else if c = 'f' then some (Char.ofNat 12)
  else none

/-- Parse the body of a JSON string after the opening quote, returning the
decoded characters and the input after the closing quote. -/
def parseStringBody : List Char → Option (List Char × List Char)
  | [] => none
  | c :: cs =>
    if c = '"' then some ([], cs)
    else if c = '\\' then
      match cs with
      | [] => none
      | e :: cs2 =>
        match unescape e with
        | none => none
        | some d =>
          match parseStringBody cs2 with
          | some (s, r) => some (d :: s, r)
          | none => none
    else
      match parseStringBody cs with
      | some (s, r) => some (c :: s, r)
      | none => none

mutual

/-- Model of the host JSON parser: one JSON value, with the unconsumed
suffix.  The budget `fuel` bounds the nesting the parser will enter; the
wrapper `jsonParse` supplies a budget that is always sufficient. -/
def parseVal : Nat → List Char → Option (JSValue × List Char)
  | 0, _ => none
  | fuel + 1, input =>
    match skipWs input with
    | [] => none
    | c :: cs =>
      if c = 'n' then
        match cs with
        | 'u' :: 'l' :: 'l' :: rest => some (.null, rest)
        | _ => none
      else if c = 't' then
        match cs with
        | 'r' :: 'u' :: 'e' :: rest => some (.bool true, rest)
        | _ => none
      else if c = 'f' then
        match cs with
        | 'a' :: 'l' :: 's' :: 'e' :: rest => some (.bool false, rest)
        | _ => none
      else if c = '"' then
        match parseStringBody cs with
        | some (sc, r) => some (.str (String.mk sc), r)
        | none => none
      else if c = '-' then
        match parseDigits cs with
        | some (n, r) => some (.num (-(n : Int)), r)
        | none => none
      else if c = '[' then
        match skipWs cs with
        | [] => none
        | d :: r =>
          if d = ']' then some (.arr [], r)
          else
            match parseElems fuel (d :: r) with
            | some (vs, r2) => some (.arr vs, r2)
            | none => none
      else if c = '{' then
        match skipWs cs with
        | [] => none
        | d :: r =>
          if d = '}' then some (.obj [], r)
          else
            match parseFields fuel (d :: r) with
            | some (fs, r2) => some (.obj fs, r2)
            | none => none
      else if c.isDigit then
        match parseDigits (c :: cs) with
        | some (n, r) => some (.num (n : Int), r)
        | none => none
      else none

/-- Parse one or more comma-separated array elements and the closing
bracket. -/
def parseElems : Nat → List Char → Option (List JSValue × List Char)
  | 0, _ => none
  | fuel + 1, input =>
    match parseVal fuel input with
    | none => none
    | some (v, r) =>
      match skipWs r with
      | [] => none
      | d :: r2 =>
        if d = ',' then
          match parseElems fuel r2 with
          | some (vs, r3) => some (v :: vs, r3)
          | none => none
        else if d = ']' then some ([v], r2)
        else none

/-- Parse one or more comma-separated object fields and the closing
brace. -/
def parseFields : Nat → List Char → Option (List (String × JSValue) × List Char)
  | 0, _ => none
  | fuel + 1, input =>
    match skipWs input with
    | [] => none
    | c :: cs =>
      if c = '"' then
        match parseStringBody cs with
        | none => none
        | some (kcs, r) =>
          match skipWs r with
          | [] => none
          | d :: r2 =>
            if d = ':' then
              match parseVal fuel r2 with
              | none => none
              | some (v, r3) =>
                match skipWs r3 with
                | [] => none
                | e2 :: r4 =>
                  if e2 = ',' then
                    match parseFields fuel r4 with
                    | some (fs, r5) => some ((String.mk kcs, v) :: fs, r5)
                    | none => none
                  else if e2 = '}' then some ([(String.mk kcs, v)], r4)
                  else none
            else none
      else none

end

/-- Model of `JSON.parse`: the whole input (up to surrounding whitespace)
must be one JSON value; `none` models a thrown `SyntaxError`. -/
def jsonParse (s : String) : Option JSValue :=
  match parseVal (s.length + 1) s.data with
  | some (v, rest) => if skipWs rest = [] then some v else none
  | none => none

mutual

/-- Model of the JavaScript `String(·)` conversion applied by the host
`setItem` to a non-string value. -/
def jsToString : JSValue → String
  | .null => "null"
  | .undef => "undefined"
  | .bool b => if b then "true" else "false"
  | .num n => String.mk (intToChars n)
  | .str s => s
  | .arr elems => String.mk (joinElems elems)
  | .obj _ => "[object Object]"

/-- Array-to-string conversion: elements joined with commas. -/
def joinElems : List JSValue → List Char
  | [] => []
  | [v] => elemChars v
  | v :: vs => elemChars v ++ ',' :: joinElems vs

/-- Element conversion inside an array join: null and undefined become
empty. -/
def elemChars : JSValue → List Char
  | .null => []
  | .undef => []
  | .bool b => if b then ['t', 'r', 'u', 'e'] else ['f', 'a', 'l', 's', 'e']
  | .num n => intToChars n
  | .str s => s.data
  | .arr elems => joinElems elems
  | .obj _ => "[object Object]".data

end

mutual

/-- Values with no `undefined` anywhere: exactly the arguments on which the
host JSON codec loses nothing ("JSON-serializable" in the spec). -/
def pureJson : JSValue → Bool
  | .undef => false
  | .arr elems => pureElems elems
  | .obj fields => pureFields fields
  | _ => true

def pureElems : List JSValue → Bool
  | [] => true
  | v :: vs => pureJson v && pureElems vs

def pureFields : List (String × JSValue) → Bool
  | [] => true
  | (_, v) :: fs => pureJson v && pureFields fs

end

/-- Model of `window.localStorage`: a string-keyed map; `none` is the
missing-key sentinel (`getItem` returns `null`). -/
def Store := String → Option String

/-- A store with no entries. -/
def emptyStore : Store := fun _ => none

/-- Host `localStorage.getItem`. -/
def hostGetItem (st : Store) (key : String) : Option String := st key

/-- Host `localStorage.setItem` (argument already coerced to a string). -/
def hostSetItem (st : Store) (key val : String) : Store :=
  fun k => if k = key then some val else st k

/-- Host `localStorage.removeItem`. -/
def hostRemoveItem (st : Store) (key : String) : Store :=
  fun k => if k = key then none else st k

/-- Host `localStorage.clear`. -/
def hostClear (_ : Store) : Store := fun _ => none

/-- Errors raised by host-store calls (e.g. quota exceeded), forwarded by
the adapter as promise rejections. -/
abbrev JSError := String

/-- Argument coercion performed by `JSON.parse`: the missing-key sentinel
`null` is converted to the string `"null"`. -/
def parseArgString : Option String → String
  | none => "null"
  | some s => s

/-- The raw input as a JavaScript value, returned by `testParse` when
decoding fails. -/
def rawInput : Option String → JSValue
  | none => JSValue.null
  | some s => JSValue.str s

/-- Embedding of `LocalStorage.testParse` (local-storage.ts lines 41-50):
try `JSON.parse` on the raw value, return the decoded value on success and
the raw value unchanged when the parse throws. -/
def testParse (value : Option String) : JSValue :=
  match jsonParse (parseArgString value) with
  | some parsedValue => parsedValue
  | none => rawInput value

/-- True exactly for arrays (JavaScript `Array.isArray`). -/
def JSValue.isArr : JSValue → Bool
  | .arr _ => true
  | _ => false

/-- Embedding of `LocalStorage.testForArray` (local-storage.ts lines
55-61): stringify arrays, pass everything else through unchanged. -/
def testForArray (value : JSValue) : JSValue :=
  if value.isArr then JSValue.str (jsonStringify value) else value

/-- The `LocalStorage` engine object.  The class keeps no per-instance
state: its constructor (lines 34-36) discards the options argument and
only calls `super()`. -/
structure LocalStorage where

/-- Embedding of `new LocalStorage(options)`: the options object is
ignored (the source default is `{}`). -/
def LocalStorage.init (_options : JSValue) : LocalStorage := {}

/-- Embedding of `LocalStorage.get` (lines 68-77).  The promise resolves
with the parsed value when the host read returns, and rejects with the
raised error otherwise (`fault` names the error the host call raises on
this invocation, if any; `testParse` itself never throws). -/
def LocalStorage.get (_self : LocalStorage) (st : Store) (key : String)
    (fault : Option JSError) : Except JSError JSValue :=
  match fault with
  | some e => Except.error e
  | none => Except.ok (testParse (hostGetItem st key))

/-- Embedding of `LocalStorage.set` (lines 85-95): normalize with
`testForArray`, then write the string coercion of the result.  Returns the
settled promise and the store after the call; a raising host call leaves
the store unchanged (the host write is atomic). -/
def LocalStorage.set (_self : LocalStorage) (st : Store) (key : String)
    (value : JSValue) (fault : Option JSError) :
    Except JSError Unit × Store :=
  let checkedValue := testForArray value
  match fault with
  | some e => (Except.error e, st)
  | none => (Except.ok (), hostSetItem st key (jsToString checkedValue))

/-- Embedding of `LocalStorage.remove` (lines 102-111). -/
def LocalStorage.remove (_self : LocalStorage) (st : Store) (key : String)
    (fault : Option JSError) : Except JSError Unit × Store :=
  match fault with
  | some e => (Except.error e, st)
  | none => (Except.ok (), hostRemoveItem st key)

/-- Embedding of `LocalStorage.clear` (lines 117-126). -/
def LocalStorage.clear (_self : LocalStorage) (st : Store)
    (fault : Option JSError) : Except JSError Unit × Store :=
  match fault with
  | some e => (Except.error e, st)
  | none => (Except.ok (), hostClear st)

/-! Helper lemmas: characters, whitespace, digit runs. -/

/-- The input does not start with a digit (so a greedy digit run stops). -/
def noLeadDigit : List Char → Bool
  | [] => true
  | c :: _ => !c.isDigit

theorem skipWs_cons_of_not_ws {c : Char} (cs : List Char) (h : wsb c = false) :
    skipWs (c :: cs) = c :: cs := by
  simp [skipWs, h]

theorem ne_of_digit_of_not {c d : Char} (hc : c.isDigit = true)
    (hd : d.isDigit = false) : ¬ (c = d) := by
  intro he; subst he; rw [hc] at hd; cases hd

theorem wsb_false_of_digit {c : Char} (hc : c.isDigit = true) : wsb c = false := by
  have h1 : ¬ (c = ' ') := ne_of_digit_of_not hc (by rfl)
  have h2 : ¬ (c = '\t') := ne_of_digit_of_not hc (by rfl)
  have h3 : ¬ (c = '\n') := ne_of_digit_of_not hc (by rfl)
  have h4 : ¬ (c = '\r') := ne_of_digit_of_not hc (by rfl)
  simp [wsb, h1, h2, h3, h4]

theorem takeWhile_digits_append {l1 l2 : List Char}
    (h1 : ∀ c ∈ l1, c.isDigit = true) (h2 : noLeadDigit l2 = true) :
    (l1 ++ l2).takeWhile Char.isDigit = l1 ∧
      (l1 ++ l2).dropWhile Char.isDigit = l2 := by
  induction l1 with
  | nil =>
    cases l2 with
    | nil => simp
    | cons c cs =>
      have hc : c.isDigit = false := by
        simpa [noLeadDigit] using h2
      simp [List.takeWhile_cons, List.dropWhile_cons, hc]
  | cons c cs ih =>
    have hc : c.isDigit = true := h1 c (by simp)
    have ihr := ih (fun d hd => h1 d (by simp [hd]))
    simp [List.takeWhile_cons, List.dropWhile_cons, hc, ihr.1, ihr.2]

/-! Decimal digits of a natural number: recurrence and facts. -/

theorem natToCharsAux_append (fuel : Nat) :
    ∀ n acc, natToCharsAux fuel n acc = natToCharsAux fuel n [] ++ acc := by
  induction fuel with
  | zero => intro n acc; simp [natToCharsAux]
  | succ fuel ih =>
    intro n acc
    by_cases h : n < 10
    · simp [natToCharsAux, h]
    · simp only [natToCharsAux, if_neg h]
      rw [ih (n / 10) (digitChar (n % 10) :: acc),
        ih (n / 10) [digitChar (n % 10)]]
      simp

theorem natToCharsAux_fuel_irrel :
    ∀ f1 f2 n, n < f1 → n < f2 →
      natToCharsAux f1 n [] = natToCharsAux f2 n [] := by
  intro f1
  induction f1 with
  | zero => intro f2 n h1; omega
  | succ f1 ih =>
    intro f2 n h1 h2
    cases f2 with
    | zero => omega
    | succ f2 =>
      by_cases h : n < 10
      · simp [natToCharsAux, h]
      · simp only [natToCharsAux, if_neg h]
        rw [natToCharsAux_append f1, natToCharsAux_append f2]
        have hlt : n / 10 < n := Nat.div_lt_self (by omega) (by omega)
        rw [ih f2 (n / 10) (by omega) (by omega)]

theorem natToChars_eq (n : Nat) :
    natToChars n =
      if n < 10 then [digitChar n]
      else natToChars (n / 10) ++ [digitChar (n % 10)] := by
  by_cases h : n < 10
  · simp [natToChars, natToCharsAux, h]
  · have hlt : n / 10 < n := Nat.div_lt_self (by omega) (by omega)
    rw [if_neg h]
    show natToCharsAux (n + 1) n [] = _
    rw [show natToCharsAux (n + 1) n [] =
      natToCharsAux n (n / 10) (digitChar (n % 10) :: []) from by
        simp [natToCharsAux, h]]
    rw [natToCharsAux_append n,
      natToCharsAux_fuel_irrel n (n / 10 + 1) (n / 10) (by omega) (by omega)]
    rfl

theorem natToChars_ne_nil (n : Nat) : natToChars n ≠ [] := by
  rw [natToChars_eq]
  by_cases h : n < 10 <;> simp [h]

theorem digitChar_isDigit {n : Nat} (h : n < 10) :
    (digitChar n).isDigit = true := by
  interval_cases n <;> rfl

theorem digitVal_digitChar {n : Nat} (h : n < 10) : digitVal (digitChar n) = n := by
  interval_cases n <;> rfl

theorem natToChars_all_digits (n : Nat) :
    ∀ c ∈ natToChars n, c.isDigit = true := by
  induction n using Nat.strong_induction_on with
  | _ n ih =>
    rw [natToChars_eq]
    by_cases h : n < 10
    · simp [h, digitChar_isDigit h]
    · have hlt : n / 10 < n := Nat.div_lt_self (by omega) (by omega)
      simp only [if_neg h, List.mem_append, List.mem_singleton]
      rintro c (hc | rfl)
      · exact ih (n / 10) hlt c hc
      · exact digitChar_isDigit (Nat.mod_lt n (by omega))

theorem foldDigits_natToChars (n : Nat) :
    ∀ a, foldDigits a (natToChars n) =
      a * 10 ^ (natToChars n).length + n := by
  induction n using Nat.strong_induction_on with
  | _ n ih =>
    intro a
    rw [natToChars_eq]
    by_cases h : n < 10
    · simp [h, foldDigits, digitVal_digitChar h]
    · have hlt : n / 10 < n := Nat.div_lt_self (by omega) (by omega)
      simp only [if_neg h]
      have hfold : foldDigits a (natToChars (n / 10) ++ [digitChar (n % 10)]) =
          foldDigits (foldDigits a (natToChars (n / 10))) [digitChar (n % 10)] := by
        simp only [foldDigits]
        exact List.foldl_append _ _ _ _
      rw [hfold, ih (n / 10) hlt a]
      simp only [foldDigits, List.foldl_cons, List.foldl_nil,
        digitVal_digitChar (Nat.mod_lt n (by omega) : n % 10 < 10),
        List.length_append, List.length_cons, List.length_nil]
      rw [pow_succ]
      have := Nat.div_add_mod n 10
      ring_nf
      omega

theorem parseDigits_natToChars (n : Nat) {rest : List Char}
    (hrest : noLeadDigit rest = true) :
    parseDigits (natToChars n ++ rest) = some (n, rest) := by
  have h := takeWhile_digits_append (natToChars_all_digits n) hrest
  simp only [parseDigits, h.1, h.2]
  rw [if_neg (by simp [List.isEmpty_iff, natToChars_ne_nil n])]
  have := foldDigits_natToChars n 0
  simp only [this, Nat.zero_mul, Nat.zero_add]

/-! String-body parsing inverts JSON escaping. -/

theorem parseStringBody_quote (cs : List Char) :
    parseStringBody ('"' :: cs) = some ([], cs) := by
  rw [parseStringBody.eq_def]
  simp

theorem parseStringBody_esc_step (e d : Char) (he : unescape e = some d)
    (l : List Char) :
    parseStringBody ('\\' :: e :: l) =
      match parseStringBody l with
      | some (s, r) => some (d :: s, r)
      | none => none := by
  rw [parseStringBody.eq_def]
  simp only [if_neg (show ¬(('\\' : Char) = '"') by decide),
    if_pos (show ('\\' : Char) = '\\' from rfl), he, if_true]

theorem parseStringBody_raw_step {c : Char} (h1 : ¬ (c = '"'))
    (h2 : ¬ (c = '\\')) (l : List Char) :
    parseStringBody (c :: l) =
      match parseStringBody l with
      | some (s, r) => some (c :: s, r)
      | none => none := by
  rw [parseStringBody.eq_def]
  simp only [if_neg h1, if_neg h2]

theorem parseStringBody_esc : ∀ (cs rest : List Char),
    parseStringBody (escString cs ++ '"' :: rest) = some (cs, rest) := by
  intro cs
  induction cs with
  | nil => intro rest; exact parseStringBody_quote rest
  | cons c cs ih =>
    intro rest
    rw [show escString (c :: cs) = escChar c ++ escString cs from rfl,
      List.append_assoc]
    by_cases h1 : c = '"'
    · subst h1
      rw [show escChar '"' = ['\\', '"'] from rfl]
      simp only [List.cons_append, List.nil_append]
      rw [parseStringBody_esc_step '"' '"' rfl, ih]
    · by_cases h2 : c = '\\'
      · subst h2
        rw [show escChar '\\' = ['\\', '\\'] from rfl]
        simp only [List.cons_append, List.nil_append]
        rw [parseStringBody_esc_step '\\' '\\' rfl, ih]
      · by_cases h3 : c = '\n'
        · subst h3
          rw [show escChar '\n' = ['\\', 'n'] from rfl]
          simp only [List.cons_append, List.nil_append]
          rw [parseStringBody_esc_step 'n' '\n' rfl, ih]
        · by_cases h4 : c = '\t'
          · subst h4
            rw [show escChar '\t' = ['\\', 't'] from rfl]
            simp only [List.cons_append, List.nil_append]
            rw [parseStringBody_esc_step 't' '\t' rfl, ih]
          · by_cases h5 : c = '\r'
            · subst h5
              rw [show escChar '\r' = ['\\', 'r'] from rfl]
              simp only [List.cons_append, List.nil_append]
              rw [parseStringBody_esc_step 'r' '\r' rfl, ih]
            · rw [show escChar c = [c] from by
                simp [escChar, h1, h2, h3, h4, h5]]
              simp only [List.cons_append, List.nil_append]
              rw [parseStringBody_raw_step h1 h2, ih]

/-! Heads of stringified values. -/

/-- Characters that can start a stringified JSON value. -/
def startOk (c : Char) : Bool :=
  decide (c = 'n' ∨ c = 't' ∨ c = 'f' ∨ c = '"' ∨ c = '-' ∨ c = '[' ∨ c = '{')
    || c.isDigit

theorem startOk_not_ws {c : Char} (h : startOk c = true) : wsb c = false := by
  simp only [startOk, Bool.or_eq_true, decide_eq_true_eq] at h
  rcases h with (rfl | rfl | rfl | rfl | rfl | rfl | rfl) | hd
  · rfl
  · rfl
  · rfl
  · rfl
  · rfl
  · rfl
  · rfl
  · exact wsb_false_of_digit hd

theorem startOk_ne_rbrack {c : Char} (h : startOk c = true) : ¬ (c = ']') := by
  simp only [startOk, Bool.or_eq_true, decide_eq_true_eq] at h
  rcases h with (rfl | rfl | rfl | rfl | rfl | rfl | rfl) | hd
  · decide
  · decide
  · decide
  · decide
  · decide
  · decide
  · decide
  · exact ne_of_digit_of_not hd rfl

theorem startOk_ne_rbrace {c : Char} (h : startOk c = true) : ¬ (c = '}') := by
  simp only [startOk, Bool.or_eq_true, decide_eq_true_eq] at h
  rcases h with (rfl | rfl | rfl | rfl | rfl | rfl | rfl) | hd
  · decide
  · decide
  · decide
  · decide
  · decide
  · decide
  · decide
  · exact ne_of_digit_of_not hd rfl

theorem stringifyChars_head (v : JSValue) :
    ∃ c tl, stringifyChars v = c :: tl ∧ startOk c = true := by
  cases v with
  | null => exact ⟨'n', ['u', 'l', 'l'], rfl, by decide⟩
  | undef => exact ⟨'n', ['u', 'l', 'l'], rfl, by decide⟩
  | bool b =>
    cases b with
    | true => exact ⟨'t', ['r', 'u', 'e'], rfl, by decide⟩
    | false => exact ⟨'f', ['a', 'l', 's', 'e'], rfl, by decide⟩
  | num n =>
    by_cases h : n < 0
    · exact ⟨'-', natToChars n.natAbs,
        by simp [stringifyChars, intToChars, h], by decide⟩
    · obtain ⟨c, tl, hct⟩ := List.exists_cons_of_ne_nil (natToChars_ne_nil n.toNat)
      have hc : c.isDigit = true :=
        natToChars_all_digits n.toNat c (by rw [hct]; simp)
      exact ⟨c, tl, by simp [stringifyChars, intToChars, h, hct],
        by simp [startOk, hc]⟩
  | str s => exact ⟨'"', escString s.data ++ ['"'], rfl, by decide⟩
  | arr elems => exact ⟨'[', stringifyElems elems ++ [']'], rfl, by decide⟩
  | obj fields => exact ⟨'{', stringifyFields fields ++ ['}'], rfl, by decide⟩

theorem stringifyChars_length_pos (v : JSValue) :
    1 ≤ (stringifyChars v).length := by
  obtain ⟨c, tl, h, _⟩ := stringifyChars_head v
  simp [h]

theorem stringifyElems_head (x : JSValue) (xs : List JSValue) :
    ∃ c tl, stringifyElems (x :: xs) = c :: tl ∧ startOk c = true := by
  obtain ⟨c, tl0, hx, hs⟩ := stringifyChars_head x
  cases xs with
  | nil => exact ⟨c, tl0, by simp [stringifyElems, hx], hs⟩
  | cons y ys =>
    exact ⟨c, tl0 ++ ',' :: stringifyElems (y :: ys),
      by simp [stringifyElems, hx], hs⟩

theorem stringifyFields_head (k : String) (v : JSValue)
    (fs : List (String × JSValue)) :
    ∃ tl, stringifyFields ((k, v) :: fs) = '"' :: tl := by
  cases fs with
  | nil => exact ⟨_, rfl⟩
  | cons f fs => exact ⟨_, rfl⟩

/-! Unfolding lemmas for the fueled parser, one per input head. -/

theorem parseVal_null (fuel : Nat) (l : List Char) :
    parseVal (fuel + 1) ('n' :: 'u' :: 'l' :: 'l' :: l) = some (.null, l) := rfl

theorem parseVal_true (fuel : Nat) (l : List Char) :
    parseVal (fuel + 1) ('t' :: 'r' :: 'u' :: 'e' :: l) =
      some (.bool true, l) := rfl

theorem parseVal_false (fuel : Nat) (l : List Char) :
    parseVal (fuel + 1) ('f' :: 'a' :: 'l' :: 's' :: 'e' :: l) =
      some (.bool false, l) := rfl

theorem parseVal_quote (fuel : Nat) (l : List Char) :
    parseVal (fuel + 1) ('"' :: l) =
      match parseStringBody l with
      | some (sc, r) => some (.str (String.mk sc), r)
      | none => none := rfl

theorem parseVal_dash (fuel : Nat) (l : List Char) :
    parseVal (fuel + 1) ('-' :: l) =
      match parseDigits l with
      | some (n, r) => some (.num (-(n : Int)), r)
      | none => none := rfl

theorem parseVal_lbrack (fuel : Nat) (l : List Char) :
    parseVal (fuel + 1) ('[' :: l) =
      (match skipWs l with
      | [] => none
      | d :: r =>
        if d = ']' then some (.arr [], r)
        else
          match parseElems fuel (d :: r) with
          | some (vs, r2) => some (.arr vs, r2)
          | none => none) := rfl

theorem parseVal_lbrace (fuel : Nat) (l : List Char) :
    parseVal (fuel + 1) ('{' :: l) =
      (match skipWs l with
      | [] => none
      | d :: r =>
        if d = '}' then some (.obj [], r)
        else
          match parseFields fuel (d :: r) with
          | some (fs, r2) => some (.obj fs, r2)
          | none => none) := rfl

theorem parseVal_digit {c : Char} (hc : c.isDigit = true) (fuel : Nat)
    (l : List Char) :
    parseVal (fuel + 1) (c :: l) =
      match parseDigits (c :: l) with
      | some (n, r) => some (.num (n : Int), r)
      | none => none := by
  have hws := wsb_false_of_digit hc
  have h1 : ¬ (c = 'n') := ne_of_digit_of_not hc rfl
  have h2 : ¬ (c = 't') := ne_of_digit_of_not hc rfl
  have h3 : ¬ (c = 'f') := ne_of_digit_of_not hc rfl
  have h4 : ¬ (c = '"') := ne_of_digit_of_not hc rfl
  have h5 : ¬ (c = '-') := ne_of_digit_of_not hc rfl
  have h6 : ¬ (c = '[') := ne_of_digit_of_not hc rfl
  have h7 : ¬ (c = '{') := ne_of_digit_of_not hc rfl
  simp only [parseVal]
  rw [skipWs_cons_of_not_ws l hws]
  simp only [if_neg h1, if_neg h2, if_neg h3, if_neg h4, if_neg h5, if_neg h6,
    if_neg h7, hc, if_true]

theorem parseElems_succ (fuel : Nat) (l : List Char) :
    parseElems (fuel + 1) l =
      (match parseVal fuel l with
      | none => none
      | some (v, r) =>
        match skipWs r with
        | [] => none
        | d :: r2 =>
          if d = ',' then
            match parseElems fuel r2 with
            | some (vs, r3) => some (v :: vs, r3)
            | none => none
          else if d = ']' then some ([v], r2)
          else none) := rfl

theorem parseFields_succ (fuel : Nat) (l : List Char) :
    parseFields (fuel + 1) l =
      (match skipWs l with
      | [] => none
      | c :: cs =>
        if c = '"' then
          match parseStringBody cs with
          | none => none
          | some (kcs, r) =>
            match skipWs r with
            | [] => none
            | d :: r2 =>
              if d = ':' then
                match parseVal fuel r2 with
                | none => none
                | some (v, r3) =>
                  match skipWs r3 with
                  | [] => none
                  | e2 :: r4 =>
                    if e2 = ',' then
                      match parseFields fuel r4 with
                      | some (fs, r5) => some ((String.mk kcs, v) :: fs, r5)
                      | none => none
                    else if e2 = '}' then some ([(String.mk kcs, v)], r4)
                    else none
              else none
        else none) := rfl

/-! Step lemmas for the fueled parser on well-formed suffixes. -/

theorem parseElems_rbrack_step {fuel : Nat} {l r2 : List Char} {v : JSValue}
    (hv : parseVal fuel l = some (v, ']' :: r2)) :
    parseElems (fuel + 1) l = some ([v], r2) := by
  rw [parseElems_succ, hv]
  rfl

theorem parseElems_comma_step {fuel : Nat} {l r2 : List Char} {v : JSValue}
    (hv : parseVal fuel l = some (v, ',' :: r2)) :
    parseElems (fuel + 1) l =
      (match parseElems fuel r2 with
      | some (vs, r3) => some (v :: vs, r3)
      | none => none) := by
  rw [parseElems_succ, hv]
  rfl

theorem parseFields_step_rbrace {fuel : Nat} {k l r4 : List Char} {v : JSValue}
    (hv : parseVal fuel l = some (v, '}' :: r4)) :
    parseFields (fuel + 1) ('"' :: (escString k ++ '"' :: ':' :: l)) =
      some ([(String.mk k, v)], r4) := by
  rw [parseFields_succ,
    skipWs_cons_of_not_ws (escString k ++ '"' :: ':' :: l) (by rfl)]
  simp [parseStringBody_esc, hv, skipWs, wsb]

theorem parseFields_step_comma {fuel : Nat} {k l r4 : List Char} {v : JSValue}
    (hv : parseVal fuel l = some (v, ',' :: r4)) :
    parseFields (fuel + 1) ('"' :: (escString k ++ '"' :: ':' :: l)) =
      (match parseFields fuel r4 with
      | some (fs, r5) => some ((String.mk k, v) :: fs, r5)
      | none => none) := by
  rw [parseFields_succ,
    skipWs_cons_of_not_ws (escString k ++ '"' :: ':' :: l) (by rfl)]
  simp [parseStringBody_esc, hv, skipWs, wsb]

/-- Round trip of the modelled JSON codec, by induction on the parser
budget: parsing a stringified value consumes exactly the encoding and
returns the value, for every sufficient budget and every suffix that does
not extend a trailing number literal. -/
theorem parseRoundTrip : ∀ fuel : Nat,
    (∀ v rest, pureJson v = true → (stringifyChars v).length ≤ fuel →
      noLeadDigit rest = true →
      parseVal fuel (stringifyChars v ++ rest) = some (v, rest)) ∧
    (∀ vs rest, vs ≠ [] → pureElems vs = true →
      (stringifyElems vs).length + 1 ≤ fuel →
      parseElems fuel (stringifyElems vs ++ ']' :: rest) = some (vs, rest)) ∧
    (∀ fs rest, fs ≠ [] → pureFields fs = true →
      (stringifyFields fs).length + 1 ≤ fuel →
      parseFields fuel (stringifyFields fs ++ '}' :: rest) = some (fs, rest)) := by
  intro fuel
  induction fuel with
  | zero =>
    refine ⟨?_, ?_, ?_⟩
    · intro v rest _ hlen _
      have := stringifyChars_length_pos v
      omega
    · intro vs rest _ _ hlen
      omega
    · intro fs rest _ _ hlen
      omega
  | succ fuel ih =>
    obtain ⟨ihV, ihE, ihF⟩ := ih
    refine ⟨?_, ?_, ?_⟩
    · intro v rest hpure hlen hrest
      cases v with
      | null => exact parseVal_null fuel rest
      | undef =>
        rw [show pureJson JSValue.undef = false from rfl] at hpure
        simp at hpure
      | bool b =>
        cases b with
        | true => exact parseVal_true fuel rest
        | false => exact parseVal_false fuel rest
      | num n =>
        by_cases hneg : n < 0
        · have hs : stringifyChars (.num n) = '-' :: natToChars n.natAbs := by
            simp [stringifyChars, intToChars, hneg]
          rw [hs]
          simp only [List.cons_append]
          rw [parseVal_dash, parseDigits_natToChars n.natAbs hrest]
          have hn : -((n.natAbs : Int)) = n := by omega
          show some (JSValue.num (-((n.natAbs : Int))), rest) = some (JSValue.num n, rest)
          rw [hn]
        · have hs : stringifyChars (.num n) = natToChars n.toNat := by
            simp [stringifyChars, intToChars, hneg]
          obtain ⟨c, tl, hct⟩ :=
            List.exists_cons_of_ne_nil (natToChars_ne_nil n.toNat)
          have hcd : c.isDigit = true :=
            natToChars_all_digits n.toNat c (by rw [hct]; simp)
          rw [hs, hct]
          simp only [List.cons_append]
          rw [parseVal_digit hcd]
          rw [show (c :: (tl ++ rest)) = (c :: tl) ++ rest from rfl, ← hct,
            parseDigits_natToChars n.toNat hrest]
          have hn : ((n.toNat : Int)) = n := by omega
          show some (JSValue.num ((n.toNat : Int)), rest) = some (JSValue.num n, rest)
          rw [hn]
      | str s =>
        have hs : stringifyChars (.str s) = '"' :: (escString s.data ++ ['"']) := by
          simp [stringifyChars]
        rw [hs]
        simp only [List.cons_append, List.append_assoc, List.singleton_append,
          List.nil_append]
        rw [parseVal_quote, parseStringBody_esc]
      | arr elems =>
        cases elems with
        | nil =>
          rw [show stringifyChars (.arr []) ++ rest = '[' :: ']' :: rest from rfl]
          rw [parseVal_lbrack, skipWs_cons_of_not_ws rest (by rfl)]
          rfl
        | cons x xs =>
          have hs : stringifyChars (.arr (x :: xs)) =
              '[' :: (stringifyElems (x :: xs) ++ [']']) := by
            simp [stringifyChars]
          rw [hs]
          simp only [List.cons_append, List.append_assoc, List.singleton_append,
            List.nil_append]
          rw [parseVal_lbrack]
          obtain ⟨c0, tl, hhd, hok⟩ := stringifyElems_head x xs
          rw [hhd]
          simp only [List.cons_append]
          rw [skipWs_cons_of_not_ws _ (startOk_not_ws hok)]
          simp only [if_neg (startOk_ne_rbrack hok)]
          have he : parseElems fuel (stringifyElems (x :: xs) ++ ']' :: rest) =
              some (x :: xs, rest) := by
            apply ihE
            · simp
            · have hp : pureJson (.arr (x :: xs)) = pureElems (x :: xs) := by
                simp [pureJson]
              rw [← hp]
              exact hpure
            · have hl : (stringifyChars (.arr (x :: xs))).length
                  = (stringifyElems (x :: xs)).length + 2 := by
                rw [hs]
                simp
              omega
          rw [show (c0 :: (tl ++ ']' :: rest)) = (c0 :: tl) ++ ']' :: rest from rfl,
            ← hhd, he]
      | obj fields =>
        cases fields with
        | nil =>
          rw [show stringifyChars (.obj []) ++ rest = '{' :: '}' :: rest from rfl]
          rw [parseVal_lbrace, skipWs_cons_of_not_ws rest (by rfl)]
          rfl
        | cons f fs =>
          obtain ⟨k, v⟩ := f
          have hs : stringifyChars (.obj ((k, v) :: fs)) =
              '{' :: (stringifyFields ((k, v) :: fs) ++ ['}']) := by
            simp [stringifyChars]
          rw [hs]
          simp only [List.cons_append, List.append_assoc, List.singleton_append,
            List.nil_append]
          rw [parseVal_lbrace]
          obtain ⟨tl, hhd⟩ := stringifyFields_head k v fs
          rw [hhd]
          simp only [List.cons_append]
          rw [skipWs_cons_of_not_ws _ (by rfl)]
          simp only [if_neg (show ¬(('"' : Char) = '}') by decide)]
          have he : parseFields fuel (stringifyFields ((k, v) :: fs) ++ '}' :: rest) =
              some ((k, v) :: fs, rest) := by
            apply ihF
            · simp
            · have hp : pureJson (.obj ((k, v) :: fs)) = pureFields ((k, v) :: fs) := by
                simp [pureJson]
              rw [← hp]
              exact hpure
            · have hl : (stringifyChars (.obj ((k, v) :: fs))).length
                  = (stringifyFields ((k, v) :: fs)).length + 2 := by
                rw [hs]
                simp
              omega
          rw [show ('"' :: (tl ++ '}' :: rest)) = ('"' :: tl) ++ '}' :: rest from rfl,
            ← hhd, he]
    · intro vs rest hne hpure hlen
      cases vs with
      | nil => exact absurd rfl hne
      | cons v vs2 =>
        cases vs2 with
        | nil =>
          have hs : stringifyElems [v] = stringifyChars v := by
            simp [stringifyElems]
          have hpv : pureJson v = true := by
            have h0 : pureElems [v] = (pureJson v && pureElems []) := by
              simp [pureElems]
            rw [h0, Bool.and_eq_true] at hpure
            exact hpure.1
          have hv : parseVal fuel (stringifyChars v ++ ']' :: rest) =
              some (v, ']' :: rest) := by
            refine ihV v (']' :: rest) hpv ?_ (by rfl)
            rw [hs] at hlen
            omega
          rw [hs]
          exact parseElems_rbrack_step hv
        | cons w ws =>
          have hs : stringifyElems (v :: w :: ws) =
              stringifyChars v ++ ',' :: stringifyElems (w :: ws) := by
            simp [stringifyElems]
          have hsplit : pureJson v = true ∧ pureElems (w :: ws) = true := by
            have h0 : pureElems (v :: w :: ws) =
                (pureJson v && pureElems (w :: ws)) := by
              simp [pureElems]
            rw [h0, Bool.and_eq_true] at hpure
            exact hpure
          have hv : parseVal fuel
              (stringifyChars v ++ ',' :: (stringifyElems (w :: ws) ++ ']' :: rest)) =
              some (v, ',' :: (stringifyElems (w :: ws) ++ ']' :: rest)) := by
            refine ihV v _ hsplit.1 ?_ (by rfl)
            rw [hs] at hlen
            simp [List.length_append] at hlen
            omega
          have hrec : parseElems fuel (stringifyElems (w :: ws) ++ ']' :: rest) =
              some (w :: ws, rest) := by
            refine ihE (w :: ws) rest (by simp) hsplit.2 ?_
            rw [hs] at hlen
            simp [List.length_append] at hlen
            have := stringifyChars_length_pos v
            omega
          rw [hs, List.append_assoc]
          simp only [List.cons_append]
          rw [parseElems_comma_step hv, hrec]
    · intro fs rest hne hpure hlen
      cases fs with
      | nil => exact absurd rfl hne
      | cons f fs2 =>
        obtain ⟨k, v⟩ := f
        cases fs2 with
        | nil =>
          have hs : stringifyFields [(k, v)] =
              '"' :: (escString k.data ++ '"' :: ':' :: stringifyChars v) := by
            simp [stringifyFields]
          have hpv : pureJson v = true := by
            have h0 : pureFields [(k, v)] = (pureJson v && pureFields []) := by
              simp [pureFields]
            rw [h0, Bool.and_eq_true] at hpure
            exact hpure.1
          have hv : parseVal fuel (stringifyChars v ++ '}' :: rest) =
              some (v, '}' :: rest) := by
            refine ihV v _ hpv ?_ (by rfl)
            rw [hs] at hlen
            simp [List.length_append] at hlen
            omega
          rw [hs]
          simp only [List.cons_append, List.append_assoc, List.nil_append]
          rw [parseFields_step_rbrace hv]
        | cons g gs =>
          have hs : stringifyFields ((k, v) :: g :: gs) =
              '"' :: (escString k.data ++ '"' :: ':' ::
                (stringifyChars v ++ ',' :: stringifyFields (g :: gs))) := by
            simp [stringifyFields]
          have hsplit : pureJson v = true ∧ pureFields (g :: gs) = true := by
            have h0 : pureFields ((k, v) :: g :: gs) =
                (pureJson v && pureFields (g :: gs)) := by
              simp [pureFields]
            rw [h0, Bool.and_eq_true] at hpure
            exact hpure
          have hv : parseVal fuel
              (stringifyChars v ++ ',' :: (stringifyFields (g :: gs) ++ '}' :: rest)) =
              some (v, ',' :: (stringifyFields (g :: gs) ++ '}' :: rest)) := by
            refine ihV v _ hsplit.1 ?_ (by rfl)
            rw [hs] at hlen
            simp [List.length_append] at hlen
            omega
          have hrec : parseFields fuel (stringifyFields (g :: gs) ++ '}' :: rest) =
              some (g :: gs, rest) := by
            refine ihF (g :: gs) rest (by simp) hsplit.2 ?_
            rw [hs] at hlen
            simp [List.length_append] at hlen
            have := stringifyChars_length_pos v
            omega
          rw [hs]
          simp only [List.cons_append, List.append_assoc, List.nil_append]
          rw [parseFields_step_comma hv, hrec]

/-- Parsing a stringified JSON-serializable value returns the value: the
model of `JSON.parse` inverts the model of `JSON.stringify`. -/
theorem jsonParse_jsonStringify {v : JSValue} (h : pureJson v = true) :
    jsonParse (jsonStringify v) = some v := by
  have hlen : (stringifyChars v).length ≤ (jsonStringify v).length + 1 := by
    have h0 : (jsonStringify v).length = (stringifyChars v).length := rfl
    omega
  have hmain := (parseRoundTrip ((jsonStringify v).length + 1)).1 v [] h hlen (by rfl)
  rw [List.append_nil] at hmain
  have hdata : (jsonStringify v).data = stringifyChars v := rfl
  simp only [jsonParse, hdata, hmain]
  rfl

/-- Reading back the key just written: the adapter hands `testParse` the
string coercion of the normalized value. -/
theorem get_after_set (inst : LocalStorage) (st : Store) (k : String)
    (v : JSValue) :
    LocalStorage.get inst (LocalStorage.set inst st k v none).2 k none =
      Except.ok (testParse (some (jsToString (testForArray v)))) := by
  simp [LocalStorage.get, LocalStorage.set, hostGetItem, hostSetItem]

/-! Claim theorems. -/

/-- C1: for every string key `k` and every JSON-serializable array value
`v`, `set(k, v)` followed by `get(k)` resolves with a value deep-equal to
`v` (the array is stringified on write by `testForArray` and parsed back
on read by `testParse`). -/
theorem set_get_array_roundtrip (inst : LocalStorage) (st : Store)
    (k : String) (elems : List JSValue)
    (h : pureJson (JSValue.arr elems) = true) :
    LocalStorage.get inst
        (LocalStorage.set inst st k (JSValue.arr elems) none).2 k none =
      Except.ok (JSValue.arr elems) := by
  rw [get_after_set]
  have h1 : testForArray (JSValue.arr elems) =
      JSValue.str (jsonStringify (JSValue.arr elems)) := by
    simp [testForArray, JSValue.isArr]
  rw [h1]
  have h2 : jsToString (JSValue.str (jsonStringify (JSValue.arr elems))) =
      jsonStringify (JSValue.arr elems) := by
    simp [jsToString]
  rw [h2]
  have h3 : testParse (some (jsonStringify (JSValue.arr elems))) =
      JSValue.arr elems := by
    simp [testParse, parseArgString, jsonParse_jsonStringify h]
  rw [h3]

/-- Witness for C1 at the concrete array `[1, 2, 3]`. -/
theorem set_get_array_roundtrip_witness :
    pureJson (JSValue.arr [.num 1, .num 2, .num 3]) = true ∧
      LocalStorage.get {} (LocalStorage.set {} emptyStore "k"
          (JSValue.arr [.num 1, .num 2, .num 3]) none).2 "k" none =
        Except.ok (JSValue.arr [.num 1, .num 2, .num 3]) :=
  ⟨by rfl, set_get_array_roundtrip {} emptyStore "k"
    [.num 1, .num 2, .num 3] (by rfl)⟩

/-- C2: for every string key `k` and plain-string value `v` that is not a
valid structured-data (JSON) literal, `set(k, v)` followed by `get(k)`
resolves with exactly the string `v`. -/
theorem set_get_plain_string (inst : LocalStorage) (st : Store) (k : String)
    (s : String) (h : jsonParse s = none) :
    LocalStorage.get inst
        (LocalStorage.set inst st k (JSValue.str s) none).2 k none =
      Except.ok (JSValue.str s) := by
  rw [get_after_set]
  have h1 : testForArray (JSValue.str s) = JSValue.str s := by
    simp [testForArray, JSValue.isArr]
  have h2 : jsToString (JSValue.str s) = s := by
    simp [jsToString]
  rw [h1, h2]
  have h3 : testParse (some s) = JSValue.str s := by
    simp [testParse, parseArgString, h, rawInput]
  rw [h3]

/-- Witness for C2 at the concrete non-literal string `"hello"`. -/
theorem set_get_plain_string_witness :
    jsonParse "hello" = none ∧
      LocalStorage.get {} (LocalStorage.set {} emptyStore "k"
          (JSValue.str "hello") none).2 "k" none =
        Except.ok (JSValue.str "hello") :=
  ⟨by rfl, set_get_plain_string {} emptyStore "k" "hello" (by rfl)⟩

/-- C3: the decode-on-read helper `testParse` is total (in this embedding
it is a total function on any string or the missing-key sentinel, so it
never raises); when the input parses as a structured-data literal it
returns the decoded value, and on decode failure it returns the input
unchanged. -/
theorem testParse_total (raw : Option String) :
    (∀ v, jsonParse (parseArgString raw) = some v → testParse raw = v) ∧
    (jsonParse (parseArgString raw) = none → testParse raw = rawInput raw) := by
  constructor
  · intro v hv
    simp [testParse, hv]
  · intro hn
    simp [testParse, hn]

/-- Witness for C3: a decoded literal and an unchanged plain string. -/
theorem testParse_total_witness :
    testParse (some "true") = JSValue.bool true ∧
      testParse (some "hello") = JSValue.str "hello" :=
  ⟨(testParse_total (some "true")).1 (JSValue.bool true) (by rfl),
   (testParse_total (some "hello")).2 (by rfl)⟩

/-- C4: the encode-on-write helper `testForArray` returns the JSON string
encoding of its argument exactly when the argument is an array, and
returns every non-array argument unchanged. -/
theorem testForArray_spec (v : JSValue) :
    (∃ elems, v = JSValue.arr elems ∧
      testForArray v = JSValue.str (jsonStringify v)) ∨
    ((∀ elems, ¬ (v = JSValue.arr elems)) ∧ testForArray v = v) := by
  cases v with
  | arr elems =>
    left
    exact ⟨elems, rfl, by simp [testForArray, JSValue.isArr]⟩
  | null => right; exact ⟨fun _ h => JSValue.noConfusion h, rfl⟩
  | undef => right; exact ⟨fun _ h => JSValue.noConfusion h, rfl⟩
  | bool b => right; exact ⟨fun _ h => JSValue.noConfusion h, rfl⟩
  | num n => right; exact ⟨fun _ h => JSValue.noConfusion h, rfl⟩
  | str s => right; exact ⟨fun _ h => JSValue.noConfusion h, rfl⟩
  | obj fields => right; exact ⟨fun _ h => JSValue.noConfusion h, rfl⟩

/-- C5: for every key `k`, `remove(k)` followed by `get(k)` resolves with
the missing-key sentinel `null` (not a decode error: `JSON.parse` coerces
the sentinel to the string `"null"`, which decodes to `null`), and after
`clear()` the same holds for every key. -/
theorem remove_clear_then_get (inst : LocalStorage) (st : Store)
    (k : String) :
    LocalStorage.get inst (LocalStorage.remove inst st k none).2 k none =
      Except.ok JSValue.null ∧
    LocalStorage.get inst (LocalStorage.clear inst st none).2 k none =
      Except.ok JSValue.null := by
  have ht : testParse none = JSValue.null := rfl
  constructor
  · simp [LocalStorage.get, LocalStorage.remove, hostGetItem,
      hostRemoveItem, ht]
  · simp [LocalStorage.get, LocalStorage.clear, hostGetItem, hostClear, ht]

/-- C6: parse-on-read collision: `set(k, "true")` then `get(k)` resolves
with the boolean `true`, and `set("count", 42)` then `get("count")`
resolves with the number `42` decoded from the stored string `"42"`. -/
theorem parse_on_read_collision (inst : LocalStorage) (st : Store)
    (k : String) :
    LocalStorage.get inst
        (LocalStorage.set inst st k (JSValue.str "true") none).2 k none =
      Except.ok (JSValue.bool true) ∧
    LocalStorage.get inst
        (LocalStorage.set inst st "count" (JSValue.num 42) none).2
        "count" none =
      Except.ok (JSValue.num 42) := by
  constructor
  · rw [get_after_set]
    rfl
  · rw [get_after_set]
    rfl

/-- C7: each operation rejects exactly when the wrapped synchronous host
call raises, with exactly the raised error, and resolves otherwise; no
failure is swallowed or transformed. -/
theorem error_propagation (inst : LocalStorage) (st : Store) (k : String)
    (v : JSValue) (e : JSError) :
    LocalStorage.get inst st k (some e) = Except.error e ∧
    (∃ w, LocalStorage.get inst st k none = Except.ok w) ∧
    (LocalStorage.set inst st k v (some e)).1 = Except.error e ∧
    (LocalStorage.set inst st k v none).1 = Except.ok () ∧
    (LocalStorage.remove inst st k (some e)).1 = Except.error e ∧
    (LocalStorage.remove inst st k none).1 = Except.ok () ∧
    (LocalStorage.clear inst st (some e)).1 = Except.error e ∧
    (LocalStorage.clear inst st none).1 = Except.ok () :=
  ⟨rfl, ⟨testParse (hostGetItem st k), rfl⟩, rfl, rfl, rfl, rfl, rfl, rfl⟩

/-- C8: a rejected `set` leaves the whole store (the previous value under
`k` and every other entry) unchanged. -/
theorem set_failure_atomic (inst : LocalStorage) (st : Store) (k : String)
    (v : JSValue) (fault : Option JSError) (e : JSError)
    (h : (LocalStorage.set inst st k v fault).1 = Except.error e) :
    (LocalStorage.set inst st k v fault).2 = st := by
  cases fault with
  | none => simp [LocalStorage.set] at h
  | some e2 => rfl

/-- Witness for C8 at a concrete quota error. -/
theorem set_failure_atomic_witness :
    (LocalStorage.set {} emptyStore "k" JSValue.null (some "quota")).1 =
        Except.error "quota" ∧
      (LocalStorage.set {} emptyStore "k" JSValue.null (some "quota")).2 =
        emptyStore :=
  ⟨rfl, set_failure_atomic {} emptyStore "k" JSValue.null (some "quota")
    "quota" rfl⟩

/-- C9: the constructor's options argument has no effect: two adapters
built with any two options objects are equal, and every operation behaves
identically on them. -/
theorem options_ignored (o1 o2 : JSValue) :
    LocalStorage.init o1 = LocalStorage.init o2 ∧
    (∀ st k fault, LocalStorage.get (LocalStorage.init o1) st k fault =
      LocalStorage.get (LocalStorage.init o2) st k fault) ∧
    (∀ st k v fault, LocalStorage.set (LocalStorage.init o1) st k v fault =
      LocalStorage.set (LocalStorage.init o2) st k v fault) ∧
    (∀ st k fault, LocalStorage.remove (LocalStorage.init o1) st k fault =
      LocalStorage.remove (LocalStorage.init o2) st k fault) ∧
    (∀ st fault, LocalStorage.clear (LocalStorage.init o1) st fault =
      LocalStorage.clear (LocalStorage.init o2) st fault) :=
  ⟨rfl, fun _ _ _ => rfl, fun _ _ _ _ => rfl, fun _ _ _ => rfl,
    fun _ _ => rfl⟩

/-- C10: when the host store holds the empty string under `k`, `get(k)`
resolves with the empty string (`JSON.parse("")` throws, so `testParse`
falls back to the raw value), which is distinguishable from the
missing-key sentinel `null`. -/
theorem empty_string_get (inst : LocalStorage) (st : Store) (k : String)
    (h : st k = some "") :
    LocalStorage.get inst st k none = Except.ok (JSValue.str "") ∧
    JSValue.str "" ≠ JSValue.null := by
  have ht : testParse (some "") = JSValue.str "" := rfl
  constructor
  · simp [LocalStorage.get, hostGetItem, h, ht]
  · exact fun hh => JSValue.noConfusion hh

/-- Witness for C10 at a concrete one-entry store. -/
theorem empty_string_get_witness :
    LocalStorage.get {} (hostSetItem emptyStore "k" "") "k" none =
        Except.ok (JSValue.str "") ∧
      JSValue.str "" ≠ JSValue.null :=
  empty_string_get {} (hostSetItem emptyStore "k" "") "k" (by rfl)
